import Mathlib

/-!
Verification of the KR_modeling structure-prediction pipeline
(`write_yamls.py`, `run_boltz.py`, `aggregate_job.py`) against its
natural-language specification.  Python functions are shallowly embedded
as executable Lean definitions over `List Char` strings, association
lists for dictionaries/rows, and `Except` for uncaught exceptions.
-/

namespace KR

/-- Strings are modelled as lists of characters. -/
abbrev Str := List Char

/-- Numeric value of a digit string, as `int` does on an all-digit string. -/
def digitsToNat (l : Str) : Nat :=
  l.foldl (fun a c => 10 * a + (c.toNat - 48)) 0

/-! ## Job Identity Deriver (`aggregate_job.py`)

`df_yaml['base_name'] = df_yaml['yaml_file'].str.replace(r'\.yaml$', '', regex=True)`
(line 75) and `extract_base` (lines 78-81):

    def extract_base(filename):
        if pd.isna(filename): return None
        m = re.match(r'^(.*)_rep\d+\.yaml$', filename)
        return m.group(1) if m else filename.rsplit('.', 1)[0]
-/

/-- The experiment-table derivation: strip a final literal `.yaml` suffix,
leave any other name unchanged (pandas `str.replace` with an anchored
regex). -/
def stripYamlSuffix (l : Str) : Str :=
  if (".yaml".data).isSuffixOf l then l.take (l.length - 5) else l

/-- Python `filename.rsplit('.', 1)[0]`: drop the part from the last dot
on; a name with no dot is returned unchanged. -/
def dropLastExt (l : Str) : Str :=
  match (l.reverse).dropWhile (fun c => !(c == '.')) with
  | [] => l
  | _ :: rest => rest.reverse

/-- The anchored greedy match `re.match(r'^(.*)_rep\d+\.yaml$', filename)`,
returning group 1.  A match exists iff the name ends in `.yaml` and, before
that, in `_rep` followed by a nonempty run of digits; greediness of `.*`
makes the digit run exactly the maximal trailing digit run (the character
before it is the non-digit `p`), so group 1 is everything before that
`_rep<digits>.yaml` tail. -/
def matchRepYaml (l : Str) : Option Str :=
  if (".yaml".data).isSuffixOf l then
    let rr := (l.take (l.length - 5)).reverse
    let ds := rr.takeWhile Char.isDigit
    if ds.isEmpty then none
    else if ("per_".data).isPrefixOf (rr.drop ds.length) then
      some ((rr.drop (ds.length + 4)).reverse)
    else none
  else none

/-- `extract_base` on a present (non-`NaN`) filename: the structured
replicate pattern when it matches, else the naive last-extension strip. -/
def extract_base (l : Str) : Str :=
  (matchRepYaml l).getD (dropLastExt l)

/-! ### Generic list helpers used by the string lemmas -/

theorem takeWhile_append_all {p : Char → Bool} (xs : Str)
    (h : ∀ x ∈ xs, p x = true) (ys : Str) :
    List.takeWhile p (xs ++ ys) = xs ++ List.takeWhile p ys := by
  induction xs with
  | nil => simp
  | cons a l ih =>
    have ha : p a = true := h a (by simp)
    simp only [List.cons_append, List.takeWhile_cons, ha]
    simp [ih (fun x hx => h x (by simp [hx]))]

theorem takeWhile_cons_neg {p : Char → Bool} {y : Char} (ys : Str)
    (h : p y = false) : List.takeWhile p (y :: ys) = [] := by
  simp [List.takeWhile_cons, h]

theorem dropWhile_append_all {p : Char → Bool} (xs : Str)
    (h : ∀ x ∈ xs, p x = true) (ys : Str) :
    List.dropWhile p (xs ++ ys) = List.dropWhile p ys := by
  induction xs with
  | nil => simp
  | cons a l ih =>
    have ha : p a = true := h a (by simp)
    simp only [List.cons_append, List.dropWhile_cons, ha]
    simp [ih (fun x hx => h x (by simp [hx]))]

theorem take_append_of_length {α : Type} (a b : List α) {n : Nat}
    (h : a.length = n) : (a ++ b).take n = a := by
  subst h; exact List.take_left a b

theorem drop_append_of_length {α : Type} (a b : List α) {n : Nat}
    (h : a.length = n) : (a ++ b).drop n = b := by
  subst h; exact List.drop_left a b

theorem isSuffixOf_append (a b : Str) : b.isSuffixOf (a ++ b) = true := by
  rw [List.isSuffixOf_iff_suffix]; exact List.suffix_append a b

/-! ### Behaviour of the two derivation paths on well-formed names -/

/-- Stripping the `.yaml` suffix from `b ++ ".yaml"` yields `b`. -/
theorem stripYamlSuffix_append (b : Str) :
    stripYamlSuffix (b ++ (".yaml".data)) = b := by
  unfold stripYamlSuffix
  rw [isSuffixOf_append]
  simp only [if_true, List.length_append]
  have : b.length + (".yaml".data).length - 5 = b.length := by simp
  rw [this, take_append_of_length b _ rfl]

/-- The naive last-extension strip on `b ++ ".yaml"` also yields `b`
(the appended dot is the last dot of the name). -/
theorem dropLastExt_append_yaml (b : Str) :
    dropLastExt (b ++ (".yaml".data)) = b := by
  unfold dropLastExt
  have h : (b ++ (".yaml".data)).reverse
      = ('l' :: 'm' :: 'a' :: 'y' :: []) ++ ('.' :: b.reverse) := by
    simp [List.reverse_append]
  rw [h, dropWhile_append_all _ (by decide) _]
  simp [List.dropWhile_cons]

/-- On a name of the exact replicate form `b ++ "_rep" ++ d ++ ".yaml"`
with `d` a nonempty digit run, the greedy pattern extracts `b`. -/
theorem matchRepYaml_spec (b d : Str) (hne : d ≠ [])
    (hdig : ∀ c ∈ d, c.isDigit = true) :
    matchRepYaml (b ++ ("_rep".data) ++ d ++ (".yaml".data)) = some b := by
  unfold matchRepYaml
  have hsuf : (".yaml".data).isSuffixOf
      (b ++ ("_rep".data) ++ d ++ (".yaml".data)) = true := by
    have := isSuffixOf_append (b ++ ("_rep".data) ++ d) (".yaml".data)
    simpa [List.append_assoc] using this
  rw [hsuf]
  simp only [if_true]
  have hlen : (b ++ ("_rep".data) ++ d ++ (".yaml".data)).length - 5
      = (b ++ ("_rep".data) ++ d).length := by
    simp only [List.length_append]
    simp
  have htake : (b ++ ("_rep".data) ++ d ++ (".yaml".data)).take
      ((b ++ ("_rep".data) ++ d ++ (".yaml".data)).length - 5)
      = b ++ ("_rep".data) ++ d := by
    rw [hlen]
    have := take_append_of_length (b ++ ("_rep".data) ++ d) (".yaml".data) rfl
    simpa [List.append_assoc] using this
  rw [htake]
  have hrev : (b ++ ("_rep".data) ++ d).reverse
      = d.reverse ++ (("per_".data) ++ b.reverse) := by
    simp [List.reverse_append, List.append_assoc]
  have hdigr : ∀ c ∈ d.reverse, c.isDigit = true := by
    intro c hc; exact hdig c (List.mem_reverse.mp hc)
  have htw : List.takeWhile Char.isDigit
      (d.reverse ++ (("per_".data) ++ b.reverse)) = d.reverse := by
    rw [takeWhile_append_all d.reverse hdigr]
    have h0 : ("per_".data) ++ b.reverse = 'p' :: (("er_".data) ++ b.reverse) := rfl
    rw [h0, takeWhile_cons_neg _ (by decide)]
    simp
  rw [hrev, htw]
  have hne' : d.reverse.isEmpty = false := by
    cases hd : d.reverse with
    | nil => exact absurd (by simpa using hd) hne
    | cons x xs => simp [hd]
  rw [hne']
  simp only [Bool.false_eq_true, if_false]
  have hdrop : (d.reverse ++ (("per_".data) ++ b.reverse)).drop d.reverse.length
      = ("per_".data) ++ b.reverse := drop_append_of_length _ _ rfl
  rw [hdrop]
  have hpre : (("per_".data)).isPrefixOf (("per_".data) ++ b.reverse) = true := by
    rw [List.isPrefixOf_iff_prefix]; exact List.prefix_append _ _
  rw [hpre]
  simp only [if_true]
  have : d.reverse.length + 4 = (d.reverse ++ ("per_".data)).length := by
    simp
  rw [this]
  have hdrop2 : (d.reverse ++ (("per_".data) ++ b.reverse)).drop
      (d.reverse ++ ("per_".data)).length = b.reverse := by
    have := drop_append_of_length (d.reverse ++ ("per_".data)) b.reverse rfl
    simpa [List.append_assoc] using this
  rw [hdrop2, List.reverse_reverse]

/-! ### Claim C5 -/

/-- C5 (amended): the replicate pattern of `extract_base` is specific to
the `.yaml` extension: for every base `b` and nonempty digit run `d`,
`extract_base (b ++ "_rep" ++ d ++ ".yaml") = b`; on a filename the
pattern does not match, `extract_base` strips only the last extension
segment; `extract_base "Foo_rep3.yaml" = "Foo"` and
`extract_base "Bar.yaml" = "Bar"`; and for every filename that ends in
`.yaml` and does not match the replicate pattern, `extract_base` agrees
with the experiment-table strip `stripYamlSuffix`, so the two derivation
paths join correctly for such names. -/
theorem claim_C5 :
    extract_base ("Foo_rep3.yaml".data) = ("Foo".data)
    ∧ extract_base ("Bar.yaml".data) = ("Bar".data)
    ∧ (∀ b d : Str, d ≠ [] → (∀ c ∈ d, c.isDigit = true) →
        extract_base (b ++ ("_rep".data) ++ d ++ (".yaml".data)) = b)
    ∧ (∀ f : Str, matchRepYaml f = none → extract_base f = dropLastExt f)
    ∧ (∀ f : Str, (".yaml".data).isSuffixOf f = true → matchRepYaml f = none →
        extract_base f = stripYamlSuffix f) := by
  refine ⟨by decide, by decide, ?_, ?_, ?_⟩
  · intro b d hne hdig
    unfold extract_base
    rw [matchRepYaml_spec b d hne hdig]
    rfl
  · intro f h
    unfold extract_base
    rw [h]
    rfl
  · intro f hsuf hnone
    rw [List.isSuffixOf_iff_suffix] at hsuf
    obtain ⟨b, hb⟩ := hsuf
    subst hb
    unfold extract_base
    rw [hnone, dropLastExt_append_yaml, stripYamlSuffix_append]
    rfl

/-- C5 witness: the general clauses of `claim_C5` instantiated at the
concrete names `A_rep42.yaml` (pattern extraction) and `x.tar.yaml`
(non-replicated agreement of the two derivation paths). -/
theorem claim_C5_witness :
    extract_base (("A".data) ++ ("_rep".data) ++ ("42".data) ++ (".yaml".data))
      = ("A".data)
    ∧ extract_base ("x.tar.yaml".data) = stripYamlSuffix ("x.tar.yaml".data) :=
  ⟨claim_C5.2.2.1 ("A".data) ("42".data) (by decide) (by decide),
   claim_C5.2.2.2.2 ("x.tar.yaml".data) (by decide) (by decide)⟩

/-- C5 counterexample: the claim states the replicate pattern as
`<base>_rep<digits>.<ext>` for an arbitrary extension and asserts that
the two derivation paths agree on every non-replicated filename, but the
code matches only the literal `.yaml` extension: on `Foo_rep3.yml` the
pattern does not apply, `extract_base` falls back to the naive strip and
returns `Foo_rep3` (not `Foo`), while the experiment-table strip leaves
`Foo_rep3.yml` unchanged, so the two paths disagree. -/
theorem claim_C5_cex :
    matchRepYaml ("Foo_rep3.yml".data) = none
    ∧ extract_base ("Foo_rep3.yml".data) = ("Foo_rep3".data)
    ∧ extract_base ("Foo_rep3.yml".data) ≠ ("Foo".data)
    ∧ stripYamlSuffix ("Foo_rep3.yml".data) = ("Foo_rep3.yml".data)
    ∧ extract_base ("Foo_rep3.yml".data) ≠ stripYamlSuffix ("Foo_rep3.yml".data) := by
  refine ⟨by decide, by decide, by decide, by decide, by decide⟩

/-! ## Replicator (`run_boltz.py`, `duplicate_yaml_files`, lines 10-32)

    yaml_files = [f for f in os.listdir(input_dir)
                  if f.endswith(('.yaml', '.yml')) and os.path.isfile(...)]
    for file in yaml_files:
        base, ext = os.path.splitext(file)
        for rep in range(1, num_replicates + 1):
            new_filename = f"{base}_rep{rep}{ext}"
            shutil.copy(file_path, new_filepath)
-/

/-- One entry of the source directory listing: a name, whether it is a
regular file (directories fail the `os.path.isfile` test), and its byte
content. -/
structure DirEntry where
  name : Str
  isFile : Bool
  content : List Nat
deriving DecidableEq

/-- `os.path.splitext`: split at the last dot, unless every character
before that dot is itself a dot (leading dots of a hidden file do not
start an extension); the extension part keeps its leading dot. -/
def splitextL (n : Str) : Str × Str :=
  let afterR := (n.reverse).takeWhile (fun c => !(c == '.'))
  if afterR.length = n.length then (n, [])
  else
    let beforeLen := n.length - afterR.length - 1
    if (n.take beforeLen).all (fun c => c == '.') then (n, [])
    else (n.take beforeLen, n.drop beforeLen)

/-- The tuple-`endswith` filter of the Replicator: names ending in
`.yaml` or `.yml`. -/
def isYamlName (n : Str) : Bool :=
  (".yaml".data).isSuffixOf n || (".yml".data).isSuffixOf n

/-- The document entries the Replicator copies: names passing the
extension filter that are regular files. -/
def yamlDocEntries (entries : List DirEntry) : List DirEntry :=
  entries.filter (fun e => isYamlName e.name && e.isFile)

/-- The copies `duplicate_yaml_files` performs into the `replicates`
subdirectory, as `(target name, byte content)` pairs: for every document
entry and every `rep` in `1..num_replicates`, a verbatim copy named
`base ++ "_rep" ++ rep ++ ext`. -/
def duplicate_yaml_files (entries : List DirEntry) (numReplicates : Nat) :
    List (Str × List Nat) :=
  (yamlDocEntries entries).flatMap fun e =>
    (List.range' 1 numReplicates).map fun rep =>
      ((splitextL e.name).1 ++ ("_rep".data) ++ (Nat.repr rep).data
        ++ (splitextL e.name).2, e.content)

/-! ### Claim C7 -/

/-- C7: for every source directory and replicate count N >= 1 the
Replicator produces exactly (number of source documents) x N copies; a
pair is among the copies exactly when it is the copy of some source
document for some k in 1..N, named by inserting `_rep<k>` between the
splitext base and extension of the source name, with byte-identical
content.  Non-document entries (wrong extension, or not a regular file)
contribute nothing. -/
theorem claim_C7 (entries : List DirEntry) (N : Nat) (hN : 1 ≤ N) :
    (duplicate_yaml_files entries N).length = (yamlDocEntries entries).length * N
    ∧ (∀ nm c, (nm, c) ∈ duplicate_yaml_files entries N ↔
        ∃ e ∈ yamlDocEntries entries, ∃ k, 1 ≤ k ∧ k ≤ N ∧
          nm = (splitextL e.name).1 ++ ("_rep".data) ++ (Nat.repr k).data
            ++ (splitextL e.name).2
          ∧ c = e.content) := by
  constructor
  · unfold duplicate_yaml_files
    induction yamlDocEntries entries with
    | nil => simp
    | cons a l ih =>
      simp only [List.flatMap_cons, List.length_append, ih, List.length_map,
        List.length_range', List.length_cons]
      ring
  · intro nm c
    unfold duplicate_yaml_files
    simp only [List.mem_flatMap, List.mem_map, List.mem_range']
    constructor
    · rintro ⟨e, he, k, ⟨i, hi, hk⟩, heq⟩
      cases heq
      exact ⟨e, he, k, by omega, by omega, rfl, rfl⟩
    · rintro ⟨e, he, k, hk1, hk2, hnm, hc⟩
      exact ⟨e, he, k, ⟨k - 1, by omega, by omega⟩, by rw [hnm, hc]⟩

/-- C7 witness: a directory with one `.yaml` document, one non-document
text file and one directory named like a document, at N = 2: the claim
applies and yields exactly 1 x 2 copies, among them `a_rep2.yaml` with
the source bytes. -/
theorem claim_C7_witness :
    (duplicate_yaml_files
      [⟨("a.yaml".data), true, [7, 8]⟩, ⟨("b.txt".data), true, [9]⟩,
       ⟨("c.yaml".data), false, []⟩] 2).length
      = (yamlDocEntries
      [⟨("a.yaml".data), true, [7, 8]⟩, ⟨("b.txt".data), true, [9]⟩,
       ⟨("c.yaml".data), false, []⟩]).length * 2
    ∧ (("a_rep2.yaml".data), [7, 8]) ∈ duplicate_yaml_files
      [⟨("a.yaml".data), true, [7, 8]⟩, ⟨("b.txt".data), true, [9]⟩,
       ⟨("c.yaml".data), false, []⟩] 2 :=
  ⟨(claim_C7 _ 2 (by decide)).1,
   ((claim_C7 _ 2 (by decide)).2 _ _).mpr
     ⟨⟨("a.yaml".data), true, [7, 8]⟩, by decide, 2, by decide, by decide,
      by decide, by decide⟩⟩

/-! ## External Runner Adapter (`run_boltz.py`, `main` lines 160-199)

Per job file the script runs the external tool (an opaque subprocess,
modelled by an input outcome and measured wall time), catching
`TimeoutExpired` and `CalledProcessError`, and appends one record
`{'filename', 'replicate', 'processing_time_sec'}` to the list; records
are then written with exactly those three CSV field names.
-/

/-- `extract_replicate_number` (lines 84-91): `re.search(r"_rep(\d+)", filename)`
finds the leftmost `_rep` immediately followed by at least one digit and
takes the greedy digit run after it; if none exists the result is 1. -/
def extract_replicate_number (l : Str) : Nat :=
  match l with
  | [] => 1
  | c :: rest =>
    if ("_rep".data).isPrefixOf (c :: rest)
        && !(((c :: rest).drop 4).takeWhile Char.isDigit).isEmpty then
      digitsToNat (((c :: rest).drop 4).takeWhile Char.isDigit)
    else extract_replicate_number rest

/-- Outcome of one external invocation: normal exit, `CalledProcessError`
(non-zero exit status), or `TimeoutExpired`. -/
inductive Outcome where
  | success
  | failed (code : Nat)
  | timedOut
deriving DecidableEq

/-- One replicate job document together with the observable behaviour of
the external tool on it: outcome and measured wall-clock seconds. -/
structure BoltzJob where
  name : Str
  outcome : Outcome
  wallTime : ℚ
deriving DecidableEq

/-- One Run Record as built at lines 186-190: exactly the three fields
`filename`, `replicate`, `processing_time_sec` (there is no outcome
field). -/
structure RunRecord where
  filename : Str
  replicate : Nat
  processing_time_sec : ℚ
deriving DecidableEq

/-- The CSV field names written for the record table (line 195). -/
def recordFieldNames : List Str :=
  [("filename".data), ("replicate".data), ("processing_time_sec".data)]

/-- Floor of a rational, computed by floor division of numerator by
denominator (kernel-reducible). -/
def ratFloor (q : ℚ) : ℤ := q.num.fdiv q.den

/-- Round-half-to-even to an integer, as Python `round` does.  The sign
of `t = 2 q.num - (2 f + 1) q.den` compares the fractional part `q - f`
with one half using only integer arithmetic. -/
def roundHalfEven (q : ℚ) : ℤ :=
  let f := ratFloor q
  let t := 2 * q.num - (2 * f + 1) * (q.den : ℤ)
  if t < 0 then f
  else if 0 < t then f + 1
  else if f % 2 = 0 then f else f + 1

/-- Python `round(x, 2)`. -/
def round2 (q : ℚ) : ℚ := Rat.divInt (roundHalfEven (q * 100)) 100

/-- Truthiness of the `--max_time` option (`if args.max_time:`): set and
nonzero. -/
def maxTimeSet (maxTime : Option ℚ) : Bool :=
  match maxTime with
  | some t => !(t == 0)
  | none => false

/-- The elapsed seconds recorded for a job: the measured wall time, except
that on a timeout with a truthy `--max_time` the capped value
`max_time * 60` is recorded (`elapsed = args.max_time * 60 if args.max_time
else (time.time() - start_time)`). -/
def elapsedOf (maxTime : Option ℚ) (j : BoltzJob) : ℚ :=
  match j.outcome with
  | .timedOut => if maxTimeSet maxTime then (maxTime.getD 0) * 60 else j.wallTime
  | _ => j.wallTime

/-- The single Run Record produced for one job, whatever its outcome. -/
def runJob (maxTime : Option ℚ) (j : BoltzJob) : RunRecord :=
  { filename := j.name,
    replicate := extract_replicate_number j.name,
    processing_time_sec := round2 (elapsedOf maxTime j) }

/-- The batch loop: every job is attempted in order and contributes its
record; a failure or timeout is caught inside the loop body, so the loop
always proceeds to the next job. -/
def runBatch (maxTime : Option ℚ) (jobs : List BoltzJob) : List RunRecord :=
  jobs.map (runJob maxTime)

/-! ### Claim C4 -/

/-- C4 (amended): every replicate document produces exactly one Run
Record regardless of outcome (the batch record list has one entry per
job, in order, and a failing or timed-out head job never prevents the
tail from being processed); the record carries the replicate filename,
the replicate number extracted from it, and the rounded measured (or, on
timeout with a set max time, capped) elapsed time.  The record does not
carry an outcome state: its CSV schema is exactly
`filename, replicate, processing_time_sec`. -/
theorem claim_C4 (maxTime : Option ℚ) (jobs : List BoltzJob) :
    (runBatch maxTime jobs).length = jobs.length
    ∧ (∀ j js, runBatch maxTime (j :: js)
        = runJob maxTime j :: runBatch maxTime js)
    ∧ (∀ j, (runJob maxTime j).filename = j.name
        ∧ (runJob maxTime j).replicate = extract_replicate_number j.name
        ∧ ((j.outcome = .timedOut ∧ maxTimeSet maxTime = true →
              (runJob maxTime j).processing_time_sec
                = round2 ((maxTime.getD 0) * 60))
          ∧ (j.outcome ≠ .timedOut →
              (runJob maxTime j).processing_time_sec = round2 j.wallTime)))
    ∧ recordFieldNames.length = 3 := by
  refine ⟨by simp [runBatch], fun j js => rfl, fun j => ⟨rfl, rfl, ?_, ?_⟩, rfl⟩
  · rintro ⟨h1, h2⟩
    simp [runJob, elapsedOf, h1, h2]
  · intro h
    cases ho : j.outcome with
    | success => simp [runJob, elapsedOf, ho]
    | failed code => simp [runJob, elapsedOf, ho]
    | timedOut => exact absurd ho h

/-- C4 witness: a three-job batch (success, failure, timeout with
`--max_time 1`) yields three records; the timed-out record carries the
capped `round2 60` seconds and the failed record its measured time. -/
theorem claim_C4_witness :
    (runBatch (some 1)
      [⟨("a_rep1.yaml".data), .success, 10⟩,
       ⟨("a_rep2.yaml".data), .failed 1, 5⟩,
       ⟨("b_rep1.yaml".data), .timedOut, 61⟩]).length = 3
    ∧ (runJob (some 1) ⟨("b_rep1.yaml".data), .timedOut, 61⟩).processing_time_sec
        = round2 ((some (1 : ℚ)).getD 0 * 60)
    ∧ (runJob (some 1) ⟨("a_rep2.yaml".data), .failed 1, 5⟩).processing_time_sec
        = round2 5 :=
  ⟨(claim_C4 (some 1) _).1,
   ((claim_C4 (some 1) []).2.2.1 ⟨("b_rep1.yaml".data), .timedOut, 61⟩).2.2.1
     ⟨rfl, by decide⟩,
   ((claim_C4 (some 1) []).2.2.1 ⟨("a_rep2.yaml".data), .failed 1, 5⟩).2.2.2
     (by decide)⟩

/-- C4 counterexample: the claim says each Run Record contains an outcome
state, but two jobs that differ only in outcome (success versus non-zero
exit) produce identical records — the record retains no outcome
information, and the persisted schema has only the three fields
`filename`, `replicate`, `processing_time_sec`. -/
theorem claim_C4_cex :
    runJob (some 1) ⟨("J_rep1.yaml".data), .success, 10⟩
      = runJob (some 1) ⟨("J_rep1.yaml".data), .failed 2, 10⟩
    ∧ Outcome.success ≠ Outcome.failed 2
    ∧ recordFieldNames = [("filename".data), ("replicate".data),
        ("processing_time_sec".data)] := by
  refine ⟨rfl, by decide, rfl⟩

/-! ## JSON values and `json.loads`

Structured payloads (constraint cells, modification lists, confidence and
affinity documents) are JSON values.  `jsonLoads` embeds the subset of
`json.loads` the pipeline data uses: objects, arrays, double-quoted
strings without escape sequences, plain decimal numbers (no exponent,
leading zeros not rejected), `true`/`false`/`null`; a parse failure is
`none`, as a raised `json.JSONDecodeError` at the call sites is always
either caught locally or modelled explicitly.
-/

/-- JSON values.  Numbers are rationals. -/
inductive JVal where
  | num (q : ℚ)
  | str (s : Str)
  | boolv (b : Bool)
  | null
  | arr (l : List JVal)
  | obj (l : List (Str × JVal))

/-- Opening brace character. -/
def lbrace : Char := Char.ofNat 123

/-- Closing brace character. -/
def rbrace : Char := Char.ofNat 125

def isJsonWs (c : Char) : Bool :=
  c == ' ' || c == '\t' || c == '\n' || c == '\r'

def skipWs (l : Str) : Str := l.dropWhile isJsonWs

/-- A double-quoted string body (no escapes supported), after the opening
quote has been consumed; returns body and remainder after the closing
quote. -/
def parseStrLit (l : Str) : Option (Str × Str) :=
  let s := l.takeWhile (fun c => !(c == '"'))
  if s.any (fun c => c == '\\') then none
  else
    match l.drop s.length with
    | '"' :: r => some (s, r)
    | _ => none

/-- A decimal number with optional leading minus and optional fractional
part. -/
def parseNum (l : Str) : Option (ℚ × Str) :=
  let p := match l with
    | '-' :: r => (true, r)
    | _ => (false, l)
  let ds := p.2.takeWhile Char.isDigit
  if ds.isEmpty then none
  else
    let rest := p.2.drop ds.length
    let ip : ℤ := (digitsToNat ds : ℤ)
    match rest with
    | '.' :: r2 =>
      let fs := r2.takeWhile Char.isDigit
      if fs.isEmpty then none
      else
        let q := Rat.divInt (ip * ((10 : ℤ) ^ fs.length) + (digitsToNat fs : ℤ))
          ((10 : ℤ) ^ fs.length)
        some (if p.1 then -q else q, r2.drop fs.length)
    | _ => some (if p.1 then -(Rat.divInt ip 1) else Rat.divInt ip 1, rest)

mutual

/-- One JSON value and the unconsumed remainder. -/
def parseJ : Nat → Str → Option (JVal × Str)
  | 0, _ => none
  | fuel + 1, l =>
    match skipWs l with
    | [] => none
    | c :: rest =>
      if c == '[' then
        match skipWs rest with
        | ']' :: r2 => some (.arr [], r2)
        | _ =>
          match parseArr fuel rest with
          | some p => some (.arr p.1, p.2)
          | none => none
      else if c == lbrace then
        match skipWs rest with
        | c2 :: r2 =>
          if c2 == rbrace then some (.obj [], r2)
          else
            match parseObj fuel rest with
            | some p => some (.obj p.1, p.2)
            | none => none
        | [] => none
      else if c == '"' then
        match parseStrLit rest with
        | some p => some (.str p.1, p.2)
        | none => none
      else if c == 't' then
        match rest with
        | 'r' :: 'u' :: 'e' :: r => some (.boolv true, r)
        | _ => none
      else if c == 'f' then
        match rest with
        | 'a' :: 'l' :: 's' :: 'e' :: r => some (.boolv false, r)
        | _ => none
      else if c == 'n' then
        match rest with
        | 'u' :: 'l' :: 'l' :: r => some (.null, r)
        | _ => none
      else
        match parseNum (c :: rest) with
        | some p => some (.num p.1, p.2)
        | none => none

/-- Nonempty comma-separated array items up to the closing bracket. -/
def parseArr : Nat → Str → Option (List JVal × Str)
  | 0, _ => none
  | fuel + 1, l =>
    match parseJ fuel l with
    | none => none
    | some (v, r) =>
      match skipWs r with
      | ',' :: r2 =>
        match parseArr fuel r2 with
        | some p => some (v :: p.1, p.2)
        | none => none
      | ']' :: r2 => some ([v], r2)
      | _ => none

/-- Nonempty comma-separated object members up to the closing brace. -/
def parseObj : Nat → Str → Option (List (Str × JVal) × Str)
  | 0, _ => none
  | fuel + 1, l =>
    match skipWs l with
    | c :: r =>
      if c == '"' then
        match parseStrLit r with
        | some (k, r2) =>
          match skipWs r2 with
          | ':' :: r3 =>
            match parseJ fuel r3 with
            | some (v, r4) =>
              match skipWs r4 with
              | ',' :: r5 =>
                match parseObj fuel r5 with
                | some p => some ((k, v) :: p.1, p.2)
                | none => none
              | c2 :: r5 => if c2 == rbrace then some ([(k, v)], r5) else none
              | [] => none
            | none => none
          | _ => none
        | none => none
      else none
    | [] => none

end

/-- `json.loads`: parse one value and require only whitespace after it. -/
def jsonLoads (s : Str) : Option JVal :=
  match parseJ (2 * s.length + 2) s with
  | some (v, r) => if (skipWs r).isEmpty then some v else none
  | none => none

/-! ## Entity/Constraint Encoder (`write_yamls.py`, `process_row`, lines 84-165) -/

/-- A pandas cell as the script consumes it: missing (`NaN`), a string,
or a boolean. -/
inductive CellV where
  | na
  | str (s : Str)
  | boolv (b : Bool)
deriving DecidableEq

/-- One CSV row: association list from column name to cell. -/
abbrev Row := List (Str × CellV)

/-- `row[c]` and `row.get(c)`: a missing column behaves like `NaN`
(`pd.isna(row.get(c))` is true either way). -/
def rowGet (r : Row) (c : Str) : CellV :=
  match r.find? (fun p => p.1 == c) with
  | some p => p.2
  | none => .na

def isna : CellV → Bool
  | .na => true
  | _ => false

/-- Python `str(cell)` as it appears in the script (`str(nan)` is the
string `nan`). -/
def strVal : CellV → Str
  | .na => ("nan".data)
  | .str s => s
  | .boolv b => if b then ("True".data) else ("False".data)

/-- Python truthiness of a cell value (`bool(nan)` is `True`; the script
only tests it after a `pd.isna` check). -/
def truthy : CellV → Bool
  | .na => true
  | .str s => !s.isEmpty
  | .boolv b => b

def isPyWs (c : Char) : Bool :=
  c == ' ' || c == '\t' || c == '\n' || c == '\r' || c == '\x0b' || c == '\x0c'

/-- Python `str.strip()`. -/
def pyStrip (s : Str) : Str :=
  (((s.dropWhile isPyWs).reverse).dropWhile isPyWs).reverse

/-- `re.match(r'entity_(\d+)_type', col)`: anchored at the start only, so
the column must begin with `entity_<digits>_type`; returns the digit
group.  (`\d+` is greedy and `_type` cannot start with a digit, so the
group is the maximal digit run.) -/
def entityTypeIdx (col : Str) : Option Str :=
  if ("entity_".data).isPrefixOf col then
    let rest := col.drop 7
    let d := rest.takeWhile Char.isDigit
    if !d.isEmpty && ("_type".data).isPrefixOf (rest.drop d.length) then some d
    else none
  else none

/-- The `(column, digit group)` pairs of discovered entity-type columns,
in row-column order. -/
def entityCols (row : Row) : List (Str × Str) :=
  (row.map Prod.fst).filterMap (fun c => (entityTypeIdx c).map (fun d => (c, d)))

/-- Comparison used by `sorted(entity_cols, key=lambda x: int(...))`. -/
def idxLe (a b : Str × Str) : Prop := digitsToNat a.2 ≤ digitsToNat b.2

instance : DecidableRel idxLe := fun a b => Nat.decLe _ _

instance : IsTotal (Str × Str) idxLe := ⟨fun a b => Nat.le_total _ _⟩

instance : IsTrans (Str × Str) idxLe := ⟨fun _ _ _ => Nat.le_trans⟩

/-- The discovered entity columns sorted by numeric index (Python
`sorted` is stable; ties between duplicate indices do not occur in
well-formed tables). -/
def entityColsSorted (row : Row) : List (Str × Str) :=
  List.insertionSort idxLe (entityCols row)

/-- The skip test `pd.isna(entity_type) or entity_type.strip() == ''`,
negated: an entity is retained when its type cell is a non-blank string.
(The script assumes type cells are strings; a boolean cell would raise
`AttributeError` on `.strip()` and is not modelled.) -/
def typeRetained (v : CellV) : Bool :=
  match v with
  | .str s => !(pyStrip s).isEmpty
  | _ => false

/-- The entity columns whose type cell retains the entity, in ascending
index order. -/
def retainedCols (row : Row) : List (Str × Str) :=
  (entityColsSorted row).filter (fun cd => typeRetained (rowGet row cd.1))

/-- The `id` value: a single scalar or an inline multi-valued list. -/
inductive IdVal where
  | single (s : Str)
  | multi (l : List Str)

/-- One entity mapping as built at lines 106-133: a field that is `none`
is absent from the emitted document (the script never stores a null
value). -/
structure EntityData where
  id : IdVal
  sequence : Option CellV
  smiles : Option Str
  ccd : Option CellV
  msa : Option CellV
  cyclic : Option Bool
  modifications : Option JVal

/-- The canonical column name `entity_<d><suffix>`. -/
def entityCol (d suffix : Str) : Str := ("entity_".data) ++ d ++ suffix

/-- Build the entity mapping for entity index `d` from the row. -/
def buildEntity (row : Row) (d : Str) : EntityData :=
  let idCell := rowGet row (entityCol d ("_id".data))
  let ids := (strVal idCell).splitOn ','
  let seqv := rowGet row (entityCol d ("_sequence".data))
  let smi := rowGet row (entityCol d ("_smiles".data))
  let ccdv := rowGet row (entityCol d ("_ccd".data))
  let msav := rowGet row (entityCol d ("_msa".data))
  let cyc := rowGet row (entityCol d ("_cyclic".data))
  let modv := rowGet row (entityCol d ("_modifications".data))
  { id := if 1 < ids.length then .multi ids else .single (ids.headD []),
    sequence := if isna seqv then none else some seqv,
    smiles := if isna smi then none else some (strVal smi),
    ccd := if isna ccdv then none else some ccdv,
    msa := if isna msav then none else some msav,
    cyclic := if !(isna cyc) && truthy cyc then some (truthy cyc) else none,
    modifications :=
      if !(isna modv) && !(pyStrip (strVal modv)).isEmpty then
        jsonLoads (strVal modv)
      else none }

/-- The `sequences` list: one `{entity_type: entity_data}` wrapper per
retained entity, in ascending index order. -/
def sequencesOf (row : Row) : List (Str × EntityData) :=
  (retainedCols row).map (fun cd => (strVal (rowGet row cd.1), buildEntity row cd.2))

/-- The three constraint columns, in source order. -/
def constraintKinds : List Str :=
  [("bonds".data), ("pockets".data), ("contacts".data)]

/-- Python `key.rstrip('s')`. -/
def rstripS (s : Str) : Str := ((s.reverse).dropWhile (fun c => c == 's')).reverse

/-- Constraint items contributed by one column: parse the cell as JSON;
only a JSON list contributes, each item wrapped under the singularised
kind; a malformed cell (or a valid non-list) contributes nothing and
parsing of the other columns is untouched. -/
def constraintItems (row : Row) (key : Str) : List (Str × JVal) :=
  let v := rowGet row key
  if !(isna v) && !(pyStrip (strVal v)).isEmpty then
    match jsonLoads (strVal v) with
    | some (.arr items) => items.map (fun it => (rstripS key, it))
    | _ => []
  else []

/-- All constraint items of the row: bonds, then pockets, then contacts. -/
def constraintsOf (row : Row) : List (Str × JVal) :=
  constraintKinds.flatMap (constraintItems row)

/-- The single property entry `{'affinity': {'binder': value}}`. -/
structure AffinityProp where
  binder : CellV
deriving DecidableEq

def propertiesOf (row : Row) : List AffinityProp :=
  let v := rowGet row ("affinity_binder".data)
  if isna v then [] else [⟨v⟩]

/-- The document emitted for one row: every top-level key is present only
when its list is nonempty (the script adds each key under an
`if <list>:` guard). -/
structure YamlDoc where
  sequences : Option (List (Str × EntityData))
  constraints : Option (List (Str × JVal))
  properties : Option (List AffinityProp)

/-- `process_row`: one document per row, never an exception. -/
def process_row (row : Row) : YamlDoc :=
  { sequences := if (sequencesOf row).isEmpty then none else some (sequencesOf row),
    constraints :=
      if (constraintsOf row).isEmpty then none else some (constraintsOf row),
    properties :=
      if (propertiesOf row).isEmpty then none else some (propertiesOf row) }

/-- The batch loop of `main` (lines 202-203): one document per row. -/
def processRows (rows : List Row) : List YamlDoc := rows.map process_row

/-! ### Claim C8 -/

/-- C8: for a row with at least one retained entity, the document carries
`sequences`, consisting of exactly the retained entities (those whose
discovered type cell is a non-blank string), in ascending numeric index
order; each optional field of an entity is absent from its mapping
exactly when the corresponding cell is missing (never emitted as a null);
and the identifier cell, split on commas, is emitted as a single scalar
for one token and as an ordered multi-value list for two or more. -/
theorem claim_C8 (row : Row) (h : retainedCols row ≠ []) :
    (process_row row).sequences = some (sequencesOf row)
    ∧ sequencesOf row
        = (retainedCols row).map
            (fun cd => (strVal (rowGet row cd.1), buildEntity row cd.2))
    ∧ List.Sorted (fun m n => m ≤ n)
        ((retainedCols row).map (fun cd => digitsToNat cd.2))
    ∧ (∀ cd, cd ∈ retainedCols row ↔
        cd ∈ entityCols row ∧ typeRetained (rowGet row cd.1) = true)
    ∧ (∀ cd ∈ retainedCols row,
        ((buildEntity row cd.2).sequence = none
          ↔ isna (rowGet row (entityCol cd.2 ("_sequence".data))) = true)
        ∧ ((buildEntity row cd.2).smiles = none
          ↔ isna (rowGet row (entityCol cd.2 ("_smiles".data))) = true)
        ∧ ((buildEntity row cd.2).ccd = none
          ↔ isna (rowGet row (entityCol cd.2 ("_ccd".data))) = true)
        ∧ ((buildEntity row cd.2).msa = none
          ↔ isna (rowGet row (entityCol cd.2 ("_msa".data))) = true))
    ∧ (∀ cd ∈ retainedCols row,
        (1 < ((strVal (rowGet row (entityCol cd.2 ("_id".data)))).splitOn ',').length →
          (buildEntity row cd.2).id
            = .multi ((strVal (rowGet row (entityCol cd.2 ("_id".data)))).splitOn ','))
        ∧ (((strVal (rowGet row (entityCol cd.2 ("_id".data)))).splitOn ',').length ≤ 1 →
          (buildEntity row cd.2).id
            = .single (((strVal (rowGet row (entityCol cd.2 ("_id".data)))).splitOn ',').headD []))) := by
  refine ⟨?_, rfl, ?_, ?_, ?_, ?_⟩
  · have hne : (sequencesOf row).isEmpty = false := by
      unfold sequencesOf
      cases hr : retainedCols row with
      | nil => exact absurd hr h
      | cons a l => simp [hr]
    simp [process_row, hne]
  · have hs : List.Sorted idxLe (entityColsSorted row) :=
      List.sorted_insertionSort idxLe (entityCols row)
    have hf : List.Sorted idxLe (retainedCols row) :=
      List.Pairwise.filter _ hs
    simpa [List.Sorted, List.pairwise_map, idxLe] using hf
  · intro cd
    simp [retainedCols, List.mem_filter, entityColsSorted,
      (List.perm_insertionSort idxLe (entityCols row)).mem_iff]
  · intro cd _
    refine ⟨?_, ?_, ?_, ?_⟩ <;>
      · simp only [buildEntity]
        cases hv : isna (rowGet row (entityCol cd.2 _)) <;> simp [hv]
  · intro cd _
    constructor
    · intro h1
      simp only [buildEntity, if_pos h1]
    · intro h1
      have h2 : ¬(1 < ((strVal (rowGet row (entityCol cd.2 ("_id".data)))).splitOn ',').length) := by
        omega
      simp only [buildEntity, if_neg h2]

/-- C8 witness: a concrete row declaring entity 2 (ligand, identifiers
`B,C`) before entity 1 (protein, identifier `A`, with a sequence): the
claim applies, the document lists the protein first (ascending index
order), the multi-token identifier becomes a list and the single-token
one a scalar. -/
theorem claim_C8_witness :
    (process_row [(("entity_2_type".data), .str ("ligand".data)),
        (("entity_2_id".data), .str ("B,C".data)),
        (("entity_1_type".data), .str ("protein".data)),
        (("entity_1_id".data), .str ("A".data)),
        (("entity_1_sequence".data), .str ("MKV".data))]).sequences
      = some (sequencesOf [(("entity_2_type".data), .str ("ligand".data)),
        (("entity_2_id".data), .str ("B,C".data)),
        (("entity_1_type".data), .str ("protein".data)),
        (("entity_1_id".data), .str ("A".data)),
        (("entity_1_sequence".data), .str ("MKV".data))])
    ∧ List.Sorted (fun m n => m ≤ n)
        ((retainedCols [(("entity_2_type".data), .str ("ligand".data)),
          (("entity_2_id".data), .str ("B,C".data)),
          (("entity_1_type".data), .str ("protein".data)),
          (("entity_1_id".data), .str ("A".data)),
          (("entity_1_sequence".data), .str ("MKV".data))]).map
            (fun cd => digitsToNat cd.2)) :=
  ⟨(claim_C8 _ (by decide)).1, (claim_C8 _ (by decide)).2.2.1⟩

/-! ### Claim C9 -/

/-- C9: rows are processed independently (changing one row never changes
the document of another, and every row yields exactly one document, so a
malformed cell cannot abort the batch); on a concrete row whose `bonds`
cell is the malformed JSON `[`, the document omits bond constraints while
retaining the valid pockets and contacts items; and a row yielding zero
entities still produces a (here empty) document. -/
theorem claim_C9 :
    (∀ rows : List Row, (processRows rows).length = rows.length)
    ∧ (∀ (rows : List Row) (i j : Nat) (row : Row), i ≠ j →
        (processRows (rows.set i row))[j]? = (processRows rows)[j]?)
    ∧ (process_row [(("entity_1_type".data), .str ("protein".data)),
        (("entity_1_id".data), .str ("A".data)),
        (("bonds".data), .str ("[".data)),
        (("pockets".data), .str ("[true]".data)),
        (("contacts".data), .str ("[null]".data))]).constraints
      = some [(("pocket".data), .boolv true), (("contact".data), .null)]
    ∧ process_row []
      = { sequences := none, constraints := none, properties := none } := by
  refine ⟨?_, ?_, rfl, rfl⟩
  · intro rows
    simp [processRows]
  · intro rows i j row hij
    simp [processRows, List.getElem?_map, List.getElem?_set_ne hij]

/-- C9 witness: replacing row 0 of a two-row batch by a row with a
malformed `bonds` cell leaves the document of row 1 unchanged. -/
theorem claim_C9_witness :
    (processRows (([[], [(("contacts".data), .str ("[null]".data))]] : List Row).set 0
        [(("bonds".data), .str ("[".data))]))[1]?
      = (processRows ([[], [(("contacts".data), .str ("[null]".data))]] : List Row))[1]? :=
  claim_C9.2.1 [[], [(("contacts".data), .str ("[null]".data))]] 0 1
    [(("bonds".data), .str ("[".data))] (by decide)

/-! ## Result Locator / Metric Flattener / Aggregator (`aggregate_job.py`)

The file system visible to the Aggregator is modelled per job: `Env` maps
a job identifier to its predictions folder
(`<predictions_dir>/boltz_results_<job_id>/predictions/<job_id>`, which
is a function of the job identifier alone), and a folder holds named
files.  A JSON file is `some doc` when readable and well-formed and
`none` when opening or parsing it would raise
(`IOError`/`json.JSONDecodeError`). -/

/-- Raw on-disk JSON document: `none` is unreadable or malformed. -/
abbrev RawDoc := Option (List (Str × JVal))

/-- One predictions folder: named files. -/
structure Folder where
  files : List (Str × RawDoc)

/-- The predictions tree, keyed by job identifier. -/
abbrev Env := List (Str × Folder)

/-- Dictionary lookup `k in d` / `d[k]`. -/
def lookupKey (d : List (Str × JVal)) (k : Str) : Option JVal :=
  match d.find? (fun p => p.1 == k) with
  | some p => some p.2
  | none => none

/-- The fixed allow-list of top-level scalar metrics (lines 20-21). -/
def topKeys : List Str :=
  [("confidence_score".data), ("ptm".data), ("iptm".data), ("ligand_iptm".data),
   ("protein_iptm".data), ("complex_plddt".data), ("complex_iplddt".data),
   ("complex_pde".data), ("complex_ipde".data)]

/-- The pure flattening step of `parse_confidence_json` (lines 18-37):
allow-listed top-level keys copied verbatim in allow-list order, then
`chains_ptm` flattened to `chains_ptm_<chain>`, then `pair_chains_iptm`
flattened to `pair_chains_iptm_<chain_i>_<chain_j>`; each nested block
only if its value is a dictionary.  The successive distinct-key `dict`
assignments are modelled as an ordered binding list. -/
def flattenConfidence (d : List (Str × JVal)) : List (Str × JVal) :=
  (topKeys.filterMap (fun k => (lookupKey d k).map (fun v => (k, v))))
  ++ (match lookupKey d ("chains_ptm".data) with
      | some (.obj m) => m.map (fun cv => (("chains_ptm_".data) ++ cv.1, cv.2))
      | _ => [])
  ++ (match lookupKey d ("pair_chains_iptm".data) with
      | some (.obj m) => m.flatMap (fun cs =>
          match cs.2 with
          | .obj m2 => m2.map (fun cv =>
              (("pair_chains_iptm_".data) ++ cs.1 ++ ('_' :: cv.1), cv.2))
          | _ => [])
      | _ => [])

/-- `parse_confidence_json` opens and parses the file with no exception
handling: an unreadable or malformed file raises, modelled as `Except`
failure. -/
def parse_confidence_json (r : RawDoc) : Except Unit (List (Str × JVal)) :=
  match r with
  | none => .error ()
  | some d => .ok (flattenConfidence d)

/-- `parse_affinity_json` (lines 39-49) catches `IOError` and
`JSONDecodeError`, returning the document verbatim on success and an
empty mapping plus a printed warning (the `Bool`) on failure. -/
def parse_affinity_json (r : RawDoc) : List (Str × JVal) × Bool :=
  match r with
  | none => ([], true)
  | some d => (d, false)

/-- `re.search(r'_model_(\d+)\.json$', name)` (line 114): the digit group
when the name ends in `_model_<digits>.json` (the digit run before
`.json` is maximal since `_model_` ends in a non-digit), else the
sentinel `?`. -/
def modelIdx (n : Str) : Str :=
  if (".json".data).isSuffixOf n then
    let rr := (n.take (n.length - 5)).reverse
    let ds := rr.takeWhile Char.isDigit
    if ds.isEmpty then ("?".data)
    else if ("_ledom_".data).isPrefixOf (rr.drop ds.length) then ds.reverse
    else ("?".data)
  else ("?".data)

/-- Suffix every flattened key of one model file with `_model_<index>`
(lines 117-118). -/
def suffixModel (n : Str) (m : List (Str × JVal)) : List (Str × JVal) :=
  m.map (fun kv => (kv.1 ++ ("_model_".data) ++ modelIdx n, kv.2))

/-- The glob `confidence_<job_id>_model_*.json` on one file name. -/
def globConf (jobId : Str) (n : Str) : Bool :=
  (("confidence_".data) ++ jobId ++ ("_model_".data)).isPrefixOf n
  && (".json".data).isSuffixOf n
  && decide ((("confidence_".data) ++ jobId ++ ("_model_".data)).length + 5 ≤ n.length)

/-- The confidence documents discovered for a job in its folder. -/
def confFilesOf (folder : Folder) (jobId : Str) : List (Str × RawDoc) :=
  folder.files.filter (fun f => globConf jobId f.1)

/-- The `json_metrics_all` assignments over all discovered model files
(lines 111-118), as the ordered list of dict assignments; the whole loop
raises as soon as one file fails to parse. -/
def jobConfMetricList : List (Str × RawDoc) → Except Unit (List (Str × JVal))
  | [] => .ok []
  | (n, d) :: fs =>
    match parse_confidence_json d with
    | .error e => .error e
    | .ok m =>
      match jobConfMetricList fs with
      | .error e => .error e
      | .ok rest => .ok (suffixModel n m ++ rest)

/-- Python `str.replace('.yaml', '')` (line 96): removes every
occurrence, scanning left to right. -/
def removeYamlAll : Str → Str
  | '.' :: 'y' :: 'a' :: 'm' :: 'l' :: rest => removeYamlAll rest
  | c :: rest => c :: removeYamlAll rest
  | [] => []

/-- One Run Record row of the Boltz CSV: a possibly missing filename,
the replicate number and the recorded seconds. -/
structure BoltzRow where
  filename : Option Str
  replicate : Nat
  processing_time_sec : ℚ

/-- One experiment row of the YAML CSV: a possibly missing `yaml_file`
plus its other columns. -/
structure YamlRow where
  yaml_file : Option Str
  cols : List (Str × CellV)

/-- Join key of a Run Record row: `extract_base` of its filename
(`None` for a missing filename, line 79). -/
def boltzBase (b : BoltzRow) : Option Str := b.filename.map extract_base

/-- Join key of an experiment row: its filename with a final `.yaml`
stripped (line 75). -/
def yamlBase (y : YamlRow) : Option Str := y.yaml_file.map stripYamlSuffix

/-- `pd.merge(df_boltz, df_yaml, how='left', on='base_name')`: every
Boltz row paired with each experiment row of equal key, or with `none`
when no experiment row matches. -/
def merged (boltz : List BoltzRow) (yaml : List YamlRow) :
    List (BoltzRow × Option YamlRow) :=
  boltz.flatMap (fun b =>
    match yaml.filter (fun y => yamlBase y == boltzBase b) with
    | [] => [(b, none)]
    | m :: ms => (m :: ms).map (fun y => (b, some y)))

/-- One summary row: the merged input columns plus the metric bindings
merged in (confidence assignments, then affinity assignments). -/
structure OutRow where
  base : BoltzRow × Option YamlRow
  metrics : List (Str × JVal)

def findFolder (env : Env) (jobId : Str) : Option Folder :=
  match env.find? (fun p => p.1 == jobId) with
  | some p => some p.2
  | none => none

/-- The affinity metrics merged for a job: the file
`affinity_<job_id>.json` if it exists, parsed with local recovery. -/
def affinityMetricsOf (folder : Folder) (jobId : Str) : List (Str × JVal) :=
  match folder.files.find?
      (fun p => p.1 == ("affinity_".data) ++ jobId ++ (".json".data)) with
  | some p => (parse_affinity_json p.2).1
  | none => []

/-- The loop body for one merged row (lines 91-130): skip the row when
the filename is missing; keep it metric-free when its predictions folder
is missing; otherwise merge the confidence and affinity metrics, where a
confidence parse failure propagates as an uncaught exception. -/
def processMergedRow (env : Env) (r : BoltzRow × Option YamlRow) :
    Except Unit (Option OutRow) :=
  match r.1.filename with
  | none => .ok none
  | some f =>
    match findFolder env (removeYamlAll f) with
    | none => .ok (some { base := r, metrics := [] })
    | some folder =>
      match jobConfMetricList (confFilesOf folder (removeYamlAll f)) with
      | .error e => .error e
      | .ok confMetrics =>
        let ms := confMetrics ++ affinityMetricsOf folder (removeYamlAll f)
        .ok (some { base := r, metrics := ms })

/-- The accumulation of `final_rows` over the merged table. -/
def buildRows (env : Env) : List (BoltzRow × Option YamlRow) → Except Unit (List OutRow)
  | [] => .ok []
  | r :: rs =>
    match processMergedRow env r with
    | .error e => .error e
    | .ok o =>
      match buildRows env rs with
      | .error e => .error e
      | .ok rest =>
        .ok (match o with
          | none => rest
          | some row => row :: rest)

/-- `pandas.Series.unique`: first occurrences, in order. -/
def uniqueFirst (l : List Str) : List Str :=
  l.foldl (fun acc a => if a ∈ acc then acc else acc ++ [a]) []

/-- `df_merged['filename'].dropna().unique()` (line 150). -/
def unique_job_yamls (m : List (BoltzRow × Option YamlRow)) : List Str :=
  uniqueFirst (m.filterMap (fun r => r.1.filename))

/-- The job identifiers whose folders the copy phase visits, one pass
each (lines 151-169). -/
def copyPassJobIds (m : List (BoltzRow × Option YamlRow)) : List Str :=
  (unique_job_yamls m).map removeYamlAll

/-! ### Helper lemmas on `uniqueFirst`, the left join and the row loop -/

theorem uniqueFirst_go_mem (l acc : List Str) (a : Str) :
    (a ∈ l.foldl (fun acc x => if x ∈ acc then acc else acc ++ [x]) acc)
      ↔ a ∈ acc ∨ a ∈ l := by
  induction l generalizing acc with
  | nil => simp
  | cons x xs ih =>
    simp only [List.foldl_cons]
    by_cases hx : x ∈ acc
    · rw [if_pos hx, ih]
      simp only [List.mem_cons]
      constructor
      · rintro (h | h)
        · exact Or.inl h
        · exact Or.inr (Or.inr h)
      · rintro (h | h | h)
        · exact Or.inl h
        · exact Or.inl (h ▸ hx)
        · exact Or.inr h
    · rw [if_neg hx, ih]
      simp only [List.mem_append, List.mem_singleton, List.mem_cons]
      tauto

theorem uniqueFirst_go_nodup (l : List Str) (acc : List Str) (h : acc.Nodup) :
    (l.foldl (fun acc x => if x ∈ acc then acc else acc ++ [x]) acc).Nodup := by
  induction l generalizing acc with
  | nil => exact h
  | cons x xs ih =>
    simp only [List.foldl_cons]
    by_cases hx : x ∈ acc
    · rw [if_pos hx]; exact ih acc h
    · rw [if_neg hx]
      refine ih _ ?_
      simp [List.nodup_append, h, hx]

theorem uniqueFirst_mem (l : List Str) (a : Str) :
    a ∈ uniqueFirst l ↔ a ∈ l := by
  simpa using uniqueFirst_go_mem l [] a

theorem uniqueFirst_nodup (l : List Str) : (uniqueFirst l).Nodup :=
  uniqueFirst_go_nodup l [] List.nodup_nil

theorem filter_key_length_le_one (yaml : List YamlRow) (k : Option Str)
    (h : (yaml.map yamlBase).Nodup) :
    (yaml.filter (fun y => yamlBase y == k)).length ≤ 1 := by
  induction yaml with
  | nil => simp
  | cons y ys ih =>
    simp only [List.map_cons, List.nodup_cons] at h
    by_cases hy : yamlBase y = k
    · rw [List.filter_cons_of_pos (by simpa using hy)]
      have hnil : ys.filter (fun y2 => yamlBase y2 == k) = [] := by
        rw [List.filter_eq_nil_iff]
        intro y2 hy2 hcon
        have h2 : yamlBase y2 = k := by simpa using hcon
        exact h.1 (by rw [hy, ← h2]; exact List.mem_map_of_mem yamlBase hy2)
      simp [hnil]
    · rw [List.filter_cons_of_neg (by simpa using hy)]
      exact ih h.2

theorem merged_length (boltz : List BoltzRow) (yaml : List YamlRow)
    (h : (yaml.map yamlBase).Nodup) :
    (merged boltz yaml).length = boltz.length := by
  induction boltz with
  | nil => rfl
  | cons b bs ih =>
    simp only [merged, List.flatMap_cons, List.length_append]
    simp only [merged] at ih
    rw [ih]
    rcases hf : yaml.filter (fun y => yamlBase y == boltzBase b) with _ | ⟨m, ms⟩
    · simp
      omega
    · have hle := filter_key_length_le_one yaml (boltzBase b) h
      rw [hf] at hle
      simp only [List.length_cons] at hle
      have hms : ms = [] := List.length_eq_zero.mp (by omega)
      subst hms
      simp
      omega

theorem mem_merged_fst (boltz : List BoltzRow) (yaml : List YamlRow)
    (r : BoltzRow × Option YamlRow) (h : r ∈ merged boltz yaml) : r.1 ∈ boltz := by
  unfold merged at h
  rw [List.mem_flatMap] at h
  obtain ⟨b, hb, hr⟩ := h
  rcases hf : yaml.filter (fun y => yamlBase y == boltzBase b) with _ | ⟨m, ms⟩ <;>
    rw [hf] at hr
  · rw [List.mem_singleton] at hr
    rw [hr]
    exact hb
  · rw [List.mem_map] at hr
    obtain ⟨y, _, hy⟩ := hr
    rw [← hy]
    exact hb

theorem processMergedRow_some (env : Env) (r : BoltzRow × Option YamlRow)
    (f : Str) (hf : r.1.filename = some f) :
    processMergedRow env r = .error ()
    ∨ ∃ row, processMergedRow env r = .ok (some row) := by
  simp only [processMergedRow, hf]
  split
  · exact Or.inr ⟨_, rfl⟩
  · split
    · rename_i e _
      cases e
      exact Or.inl rfl
    · exact Or.inr ⟨_, rfl⟩

theorem buildRows_length (env : Env) (m : List (BoltzRow × Option YamlRow))
    (h1 : ∀ r ∈ m, r.1.filename ≠ none) :
    ∀ rows, buildRows env m = .ok rows → rows.length = m.length := by
  induction m with
  | nil =>
    intro rows hok
    simp only [buildRows] at hok
    cases hok
    rfl
  | cons r rs ih =>
    intro rows hok
    simp only [buildRows] at hok
    cases hp : processMergedRow env r with
    | error e => rw [hp] at hok; cases hok
    | ok o =>
      rw [hp] at hok
      cases hb : buildRows env rs with
      | error e => rw [hb] at hok; cases hok
      | ok rest =>
        rw [hb] at hok
        have hf : ∃ f, r.1.filename = some f := by
          cases hfn : r.1.filename with
          | none => exact absurd hfn (h1 r (List.mem_cons_self r rs))
          | some f => exact ⟨f, rfl⟩
        obtain ⟨f, hf⟩ := hf
        rcases processMergedRow_some env r f hf with herr | ⟨row, hsome⟩
        · rw [herr] at hp; cases hp
        · rw [hsome] at hp
          injection hp with hp
          subst hp
          cases hok
          simp only [List.length_cons]
          rw [ih (fun x hx => h1 x (List.mem_cons_of_mem r hx)) rest hb]

/-! ### Claim C1 -/

/-- C1 (amended): whenever the aggregation run completes, the summary has
exactly one row per Run Record row, provided every Run Record row has a
present filename and the experiment table has at most one row per base
identifier — regardless of missing result folders or unmatched base
identifiers.  (A Run Record row with a missing filename is skipped with a
warning, and duplicated experiment-side base identifiers multiply the
joined rows, so both provisos are necessary.) -/
theorem claim_C1 (boltz : List BoltzRow) (yaml : List YamlRow) (env : Env)
    (h1 : ∀ b ∈ boltz, b.filename ≠ none)
    (h2 : (yaml.map yamlBase).Nodup) :
    ∀ rows, buildRows env (merged boltz yaml) = .ok rows →
      rows.length = boltz.length := by
  intro rows hok
  have hm : ∀ r ∈ merged boltz yaml, r.1.filename ≠ none := fun r hr =>
    h1 r.1 (mem_merged_fst boltz yaml r hr)
  rw [buildRows_length env _ hm rows hok, merged_length boltz yaml h2]

/-- Run Record table for the C1 witness: one replicate row for job `X`. -/
def wBoltz : List BoltzRow := [⟨some ("X_rep1.yaml".data), 1, 0⟩]

/-- Experiment table for the C1 witness: one experiment row for base
`X`, no predictions folder in the environment. -/
def wYaml : List YamlRow := [⟨some ("X.yaml".data), []⟩]

/-- The single summary row produced for the C1 witness tables. -/
def wOut : OutRow where
  base := (⟨some ("X_rep1.yaml".data), 1, 0⟩, some ⟨some ("X.yaml".data), []⟩)
  metrics := []

/-- C1 witness: on the concrete one-replicate table with a matching
experiment row and a missing result folder, the completed run has
exactly one summary row. -/
theorem claim_C1_witness : ([wOut] : List OutRow).length = wBoltz.length :=
  claim_C1 wBoltz wYaml []
    (by
      intro b hb
      rw [wBoltz, List.mem_singleton] at hb
      subst hb
      exact fun hc => Option.noConfusion hc)
    (by simp [wYaml])
    _ rfl

/-- Run Record table for the C1 counterexample: a single replicate row. -/
def cexBoltz : List BoltzRow := [⟨some ("X.yaml".data), 1, 0⟩]

/-- Experiment table for the C1 counterexample: two rows with the same
base identifier `X`. -/
def cexYaml : List YamlRow :=
  [⟨some ("X.yaml".data), []⟩, ⟨some ("X.yaml".data), []⟩]

/-- C1 counterexample: with one Run Record row and two experiment rows
sharing its base identifier, the left join emits two joined rows and the
completed summary has two rows, not one — the original claim (exactly
one summary row per Run Record row for every pair of input tables) is
false. -/
theorem claim_C1_cex :
    Except.map List.length (buildRows [] (merged cexBoltz cexYaml)) = .ok 2
    ∧ cexBoltz.length = 1 := ⟨rfl, rfl⟩

/-! ### Claim C3 -/

/-- C3 (amended): the copy phase deduplicates by replicate-qualified
filename, not by logical job: it performs one pass per distinct
non-missing filename of the merged table (each pass globbing that
replicate folder into the destination buckets), so a filename repeated
by the join — e.g. by several matching experiment rows — is still copied
only once, while distinct replicates of the same logical job get one
pass each. -/
theorem claim_C3 (m : List (BoltzRow × Option YamlRow)) :
    (unique_job_yamls m).Nodup
    ∧ (∀ f, f ∈ unique_job_yamls m ↔ f ∈ m.filterMap (fun r => r.1.filename))
    ∧ copyPassJobIds m = (unique_job_yamls m).map removeYamlAll :=
  ⟨uniqueFirst_nodup _, fun f => uniqueFirst_mem _ f, rfl⟩

/-- Run Record table for the C3 counterexample: two replicates of the
same logical job `X`. -/
def c3boltz : List BoltzRow :=
  [⟨some ("X_rep1.yaml".data), 1, 0⟩, ⟨some ("X_rep2.yaml".data), 2, 0⟩]

/-- C3 counterexample: with two replicates of one logical job, the copy
phase performs two passes (one per replicate filename), although the
table has a single logical base identifier — so grouping and
deduplication are per replicate filename, not per logical job as
claimed. -/
theorem claim_C3_cex :
    copyPassJobIds (merged c3boltz []) = [("X_rep1".data), ("X_rep2".data)]
    ∧ uniqueFirst ((merged c3boltz []).filterMap
        (fun r => r.1.filename.map extract_base)) = [("X".data)]
    ∧ (copyPassJobIds (merged c3boltz [])).length ≠ 1 :=
  ⟨by decide, by decide, by decide⟩

/-! ### Claim C2: model-index suffixes and key collisions -/

/-- The characters after the last underscore of a name. -/
def afterLastUnderscore (l : Str) : Str :=
  ((l.reverse).takeWhile (fun c => !(c == '_'))).reverse

theorem afterLastUnderscore_suffixed (a i : Str)
    (hi : ∀ c ∈ i, (c == '_') = false) :
    afterLastUnderscore (a ++ ("_model_".data) ++ i) = i := by
  unfold afterLastUnderscore
  have hrev : (a ++ ("_model_".data) ++ i).reverse
      = i.reverse ++ (("_ledom_".data) ++ a.reverse) := by
    rw [List.reverse_append, List.reverse_append]
    rfl
  rw [hrev]
  rw [takeWhile_append_all i.reverse
    (fun c hc => by simpa using hi c (List.mem_reverse.mp hc))]
  rw [show (("_ledom_".data) ++ a.reverse)
    = '_' :: (("ledom_".data) ++ a.reverse) from rfl]
  rw [takeWhile_cons_neg _ (by decide)]
  simp

theorem modelIdx_no_underscore (n : Str) :
    ∀ c ∈ modelIdx n, (c == '_') = false := by
  intro c hc
  simp only [modelIdx] at hc
  split at hc
  · split at hc
    · simp only [List.mem_singleton] at hc
      subst hc
      decide
    · split at hc
      · rw [List.mem_reverse] at hc
        have hd := List.mem_takeWhile_imp hc
        cases hu : c == '_'
        · rfl
        · exfalso
          have hcu : c = '_' := by simpa using hu
          rw [hcu] at hd
          simp at hd
      · simp only [List.mem_singleton] at hc
        subst hc
        decide
  · simp only [List.mem_singleton] at hc
    subst hc
    decide

theorem jobConf_keys_shape (files : List (Str × RawDoc)) (l : List (Str × JVal))
    (hok : jobConfMetricList files = .ok l) :
    ∀ key ∈ l.map Prod.fst, ∃ f ∈ files, ∃ k,
      key = k ++ ("_model_".data) ++ modelIdx f.1 := by
  induction files generalizing l with
  | nil =>
    simp only [jobConfMetricList] at hok
    cases hok
    simp
  | cons fd fs ih =>
    obtain ⟨n, d⟩ := fd
    simp only [jobConfMetricList] at hok
    cases d with
    | none => simp [parse_confidence_json] at hok
    | some doc =>
      simp only [parse_confidence_json] at hok
      cases hrest : jobConfMetricList fs with
      | error e => rw [hrest] at hok; simp at hok
      | ok rest =>
        rw [hrest] at hok
        injection hok with hok
        subst hok
        intro key hkey
        rw [List.map_append, List.mem_append] at hkey
        rcases hkey with hkey | hkey
        · simp only [suffixModel, List.map_map, List.mem_map, Function.comp] at hkey
          obtain ⟨kv, _, hk⟩ := hkey
          exact ⟨(n, some doc), List.mem_cons_self _ _, kv.1, hk.symm⟩
        · obtain ⟨f, hf, k, hk⟩ := ih rest hrest key hkey
          exact ⟨f, List.mem_cons_of_mem _ hf, k, hk⟩

/-- C2 (amended): the flattened per-job metric mapping assigns no key
twice provided each single file contributes duplicate-free flattened
keys and the model indices extracted from the discovered filenames are
pairwise distinct.  (Distinct indices — including at most one `?`
sentinel — force distinct suffixed keys because the index, which never
contains an underscore, is exactly the segment after the last
underscore of a suffixed key.) -/
theorem claim_C2 (files : List (Str × RawDoc)) (l : List (Str × JVal))
    (hok : jobConfMetricList files = .ok l)
    (hidx : (files.map (fun f => modelIdx f.1)).Pairwise (fun a b => a ≠ b))
    (hper : ∀ f ∈ files, ∀ d, f.2 = some d →
      ((flattenConfidence d).map Prod.fst).Nodup) :
    (l.map Prod.fst).Nodup := by
  induction files generalizing l with
  | nil =>
    simp only [jobConfMetricList] at hok
    cases hok
    simp
  | cons fd fs ih =>
    obtain ⟨n, d⟩ := fd
    simp only [jobConfMetricList] at hok
    cases d with
    | none => simp [parse_confidence_json] at hok
    | some doc =>
      simp only [parse_confidence_json] at hok
      cases hrest : jobConfMetricList fs with
      | error e => rw [hrest] at hok; simp at hok
      | ok rest =>
        rw [hrest] at hok
        injection hok with hok
        subst hok
        rw [List.map_append, List.nodup_append]
        refine ⟨?_, ?_, ?_⟩
        · have hnd : ((flattenConfidence doc).map Prod.fst).Nodup :=
            hper (n, some doc) (List.mem_cons_self _ _) doc rfl
          have hmap : (suffixModel n (flattenConfidence doc)).map Prod.fst
              = ((flattenConfidence doc).map Prod.fst).map
                  (fun k => k ++ ("_model_".data) ++ modelIdx n) := by
            simp [suffixModel, List.map_map, Function.comp]
          rw [hmap]
          refine List.Nodup.map ?_ hnd
          intro a b hab
          exact List.append_cancel_right (List.append_cancel_right hab)
        · exact ih rest hrest (List.Pairwise.of_cons hidx)
            (fun f hf => hper f (List.mem_cons_of_mem _ hf))
        · intro key hk1 hk2
          simp only [suffixModel, List.map_map, List.mem_map, Function.comp] at hk1
          obtain ⟨kv, _, hk⟩ := hk1
          obtain ⟨f, hf, k', hk'⟩ := jobConf_keys_shape fs rest hrest key hk2
          have h1 : afterLastUnderscore key = modelIdx n := by
            rw [← hk]
            exact afterLastUnderscore_suffixed _ _ (modelIdx_no_underscore n)
          have h2 : afterLastUnderscore key = modelIdx f.1 := by
            rw [hk']
            exact afterLastUnderscore_suffixed _ _ (modelIdx_no_underscore f.1)
          have hne := (List.pairwise_cons.mp hidx).1 (modelIdx f.1)
            (List.mem_map_of_mem _ hf)
          exact hne (h1.symm.trans h2)

/-- Confidence files with distinct extractable indices, for the C2
witness. -/
def w2files : List (Str × RawDoc) :=
  [(("confidence_J_model_0.json".data), some [(("ptm".data), JVal.num 1)]),
   (("confidence_J_model_1.json".data), some [(("ptm".data), JVal.num 2)])]

/-- C2 witness: two model files with indices 0 and 1 flatten into a
collision-free mapping `ptm_model_0, ptm_model_1`. -/
theorem claim_C2_witness :
    (([(("ptm_model_0".data), JVal.num 1), (("ptm_model_1".data), JVal.num 2)]
      : List (Str × JVal)).map Prod.fst).Nodup :=
  claim_C2 w2files _ rfl (by decide)
    (by
      intro f hf d hd
      rw [w2files] at hf
      rcases List.mem_cons.mp hf with h | h
      · rw [h] at hd
        injection hd with hd
        subst hd
        decide
      · rw [List.mem_singleton] at h
        rw [h] at hd
        injection hd with hd
        subst hd
        decide)

/-- Confidence files for the C2 counterexample: both match the discovery
glob for job `J`, and neither filename yields an extractable model
index. -/
def c2files : List (Str × RawDoc) :=
  [(("confidence_J_model_a.json".data), some [(("ptm".data), JVal.num 1)]),
   (("confidence_J_model_b.json".data), some [(("ptm".data), JVal.num 2)])]

/-- C2 counterexample: the claim says keys never collide across model
files even when the `?` sentinel is used, but two distinct glob-matched
files whose indices are unextractable both get the suffix `_model_?`,
and the merged mapping assigns the key `ptm_model_?` twice. -/
theorem claim_C2_cex :
    globConf ("J".data) ("confidence_J_model_a.json".data) = true
    ∧ globConf ("J".data) ("confidence_J_model_b.json".data) = true
    ∧ modelIdx ("confidence_J_model_a.json".data) = ("?".data)
    ∧ modelIdx ("confidence_J_model_b.json".data) = ("?".data)
    ∧ Except.map (fun l => l.map Prod.fst) (jobConfMetricList c2files)
        = .ok [("ptm_model_?".data), ("ptm_model_?".data)]
    ∧ ¬ ([("ptm_model_?".data), ("ptm_model_?".data)] : List Str).Nodup := by
  refine ⟨by decide, by decide, by decide, by decide, rfl, by decide⟩

/-! ### Claim C6 -/

/-- The confidence document of the specification example. -/
def c6doc : List (Str × JVal) :=
  [(("ptm".data), JVal.num 0.8),
   (("chains_ptm".data), JVal.obj [(("A".data), JVal.num 0.9)])]

/-- C6: the flattener copies allow-listed top-level scalars verbatim,
flattens the per-chain sub-mapping to `chains_ptm_<chain>` and the
per-chain-pair sub-mapping to `pair_chains_iptm_<ci>_<cj>`, and suffixes
every key with the model index; on the specification example document
from `confidence_Job1_model_0.json` the output is exactly
`ptm_model_0 = 0.8` and `chains_ptm_A_model_0 = 0.9`. -/
theorem claim_C6 :
    suffixModel ("confidence_Job1_model_0.json".data) (flattenConfidence c6doc)
      = [(("ptm_model_0".data), JVal.num 0.8),
         (("chains_ptm_A_model_0".data), JVal.num 0.9)]
    ∧ (∀ (d : List (Str × JVal)) (k : Str) (v : JVal),
        k ∈ topKeys → lookupKey d k = some v → (k, v) ∈ flattenConfidence d)
    ∧ (∀ (d : List (Str × JVal)) (m : List (Str × JVal)) (c : Str) (v : JVal),
        lookupKey d ("chains_ptm".data) = some (.obj m) → (c, v) ∈ m →
        (("chains_ptm_".data) ++ c, v) ∈ flattenConfidence d)
    ∧ (∀ (d m m2 : List (Str × JVal)) (ci cj : Str) (v : JVal),
        lookupKey d ("pair_chains_iptm".data) = some (.obj m) →
        (ci, JVal.obj m2) ∈ m → (cj, v) ∈ m2 →
        (("pair_chains_iptm_".data) ++ ci ++ ('_' :: cj), v) ∈ flattenConfidence d)
    ∧ (∀ (nm : Str) (ms : List (Str × JVal)),
        (suffixModel nm ms).map Prod.fst
          = (ms.map Prod.fst).map (fun k => k ++ ("_model_".data) ++ modelIdx nm)) := by
  refine ⟨rfl, ?_, ?_, ?_, ?_⟩
  · intro d k v hk hl
    unfold flattenConfidence
    refine List.mem_append_left _ (List.mem_append_left _ ?_)
    rw [List.mem_filterMap]
    exact ⟨k, hk, by rw [hl]; rfl⟩
  · intro d m c v hm hcv
    unfold flattenConfidence
    refine List.mem_append_left _ (List.mem_append_right _ ?_)
    rw [hm]
    exact List.mem_map_of_mem _ hcv
  · intro d m m2 ci cj v hp hci hcj
    unfold flattenConfidence
    refine List.mem_append_right _ ?_
    rw [hp]
    rw [List.mem_flatMap]
    exact ⟨(ci, JVal.obj m2), hci, List.mem_map_of_mem _ hcj⟩
  · intro nm ms
    simp [suffixModel, List.map_map, Function.comp]

/-- C6 witness: the general clauses instantiated on the example document
— the verbatim `ptm` copy and the flattened `chains_ptm_A` entry are
both present before suffixing. -/
theorem claim_C6_witness :
    ((("ptm".data), JVal.num 0.8) ∈ flattenConfidence c6doc)
    ∧ ((("chains_ptm_".data) ++ ("A".data), JVal.num 0.9) ∈ flattenConfidence c6doc) :=
  ⟨claim_C6.2.1 c6doc ("ptm".data) (JVal.num 0.8) (by decide) rfl,
   claim_C6.2.2.1 c6doc [(("A".data), JVal.num 0.9)] ("A".data) (JVal.num 0.9)
     rfl (List.mem_singleton.mpr rfl)⟩

/-! ### Claim C10 -/

theorem jobConf_error_of_bad (files : List (Str × RawDoc)) (n : Str)
    (hm : (n, (none : RawDoc)) ∈ files) :
    jobConfMetricList files = .error () := by
  induction files with
  | nil => simp at hm
  | cons f fs ih =>
    rcases List.mem_cons.mp hm with heq | htail
    · rw [← heq]
      simp [jobConfMetricList, parse_confidence_json]
    · obtain ⟨n', d'⟩ := f
      simp only [jobConfMetricList]
      cases d' with
      | none => simp [parse_confidence_json]
      | some doc =>
        simp only [parse_confidence_json]
        rw [ih htail]

theorem buildRows_error (env : Env) (m : List (BoltzRow × Option YamlRow))
    (h : ∃ r ∈ m, processMergedRow env r = .error ()) :
    buildRows env m = .error () := by
  induction m with
  | nil => simp at h
  | cons r rs ih =>
    obtain ⟨r', hr', herr⟩ := h
    rcases List.mem_cons.mp hr' with heq | htail
    · subst heq
      simp only [buildRows, herr]
    · simp only [buildRows]
      cases hp : processMergedRow env r with
      | error e => cases e; rfl
      | ok o => rw [ih ⟨r', htail, herr⟩]

/-- C10: if any confidence document discovered by the per-model glob for
some surviving merged row is unreadable or malformed, the whole
aggregation aborts with the uncaught parse exception — there is no local
recovery for confidence documents — whereas an unreadable or malformed
affinity document yields an empty mapping plus a warning and a readable
one is returned verbatim. -/
theorem claim_C10 (env : Env) (m : List (BoltzRow × Option YamlRow))
    (r : BoltzRow × Option YamlRow) (f : Str) (folder : Folder) (n : Str)
    (hr : r ∈ m) (hf : r.1.filename = some f)
    (hff : findFolder env (removeYamlAll f) = some folder)
    (hn : (n, (none : RawDoc)) ∈ confFilesOf folder (removeYamlAll f)) :
    buildRows env m = .error ()
    ∧ parse_confidence_json none = .error ()
    ∧ parse_affinity_json none = ([], true)
    ∧ (∀ d, parse_affinity_json (some d) = (d, false)) := by
  refine ⟨?_, rfl, rfl, fun d => rfl⟩
  refine buildRows_error env m ⟨r, hr, ?_⟩
  simp only [processMergedRow, hf, hff]
  rw [jobConf_error_of_bad _ n hn]

/-- Run Record row for the C10 witness. -/
def w10row : BoltzRow × Option YamlRow := (⟨some ("J.yaml".data), 1, 0⟩, none)

/-- Predictions tree for the C10 witness: the folder of job `J` holds one
glob-matched confidence file that is unreadable/malformed. -/
def w10env : Env :=
  [(("J".data), ⟨[(("confidence_J_model_0.json".data), (none : RawDoc))]⟩)]

/-- C10 witness: on the concrete one-row table whose folder holds a
malformed confidence document, the aggregation aborts. -/
theorem claim_C10_witness : buildRows w10env [w10row] = .error () :=
  (claim_C10 w10env [w10row] w10row ("J.yaml".data)
    ⟨[(("confidence_J_model_0.json".data), (none : RawDoc))]⟩
    ("confidence_J_model_0.json".data)
    (List.mem_singleton.mpr rfl) rfl rfl
    (List.mem_singleton.mpr rfl)).1

end KR
